import Mathlib

/-!
Shallow embedding of the crop-disease-api repository (FastAPI service):
`app/services/llm_service.py`, `app/routes/predict.py`,
`app/routes/market_prices.py`. Machine reals are modelled as `ℚ`
(the numeric claims at stake are exact comparisons and decimal roundings).
External collaborators (the Groq text service, the classifier, the
data.gov.in feed) are modelled as explicit behaviour parameters.

Arithmetic on `ℚ` is expressed through small wrappers (`pyAdd`, `pyMul`,
`pyDiv`, `pySub`, `pyNeg`, `pyAbs`) built on `Rat.divInt` so that concrete
runs of the embedding reduce by `decide`; each wrapper is proved equal to
the corresponding field operation just below its definition.
-/

set_option maxRecDepth 16384

namespace CropApi

/-! ## Exact rational arithmetic wrappers -/

def pyAdd (a b : ℚ) : ℚ := Rat.divInt (a.num * b.den + b.num * a.den) (a.den * b.den)

def pySub (a b : ℚ) : ℚ := Rat.divInt (a.num * b.den - b.num * a.den) (a.den * b.den)

def pyMul (a b : ℚ) : ℚ := Rat.divInt (a.num * b.num) (a.den * b.den)

def pyDiv (a b : ℚ) : ℚ := Rat.divInt (a.num * b.den) (a.den * b.num)

def pyNeg (a : ℚ) : ℚ := Rat.divInt (-a.num) a.den

def pyAbs (a : ℚ) : ℚ := if a.num < 0 then pyNeg a else a

def qOfNat (n : ℕ) : ℚ := Rat.divInt n 1

theorem pyAdd_eq (a b : ℚ) : pyAdd a b = a + b := by
  conv_rhs => rw [← Rat.num_div_den a, ← Rat.num_div_den b]
  rw [div_add_div _ _ (by exact_mod_cast a.den_nz) (by exact_mod_cast b.den_nz),
    pyAdd, Rat.divInt_eq_div]
  push_cast
  ring_nf

theorem pySub_eq (a b : ℚ) : pySub a b = a - b := by
  conv_rhs => rw [← Rat.num_div_den a, ← Rat.num_div_den b]
  rw [div_sub_div _ _ (by exact_mod_cast a.den_nz) (by exact_mod_cast b.den_nz),
    pySub, Rat.divInt_eq_div]
  push_cast
  ring_nf

theorem pyMul_eq (a b : ℚ) : pyMul a b = a * b := by
  conv_rhs => rw [← Rat.num_div_den a, ← Rat.num_div_den b]
  rw [div_mul_div_comm, pyMul, Rat.divInt_eq_div]
  push_cast
  ring_nf

theorem pyDiv_eq (a b : ℚ) : pyDiv a b = a / b := by
  rw [pyDiv, Rat.divInt_eq_div]
  push_cast
  rw [← div_mul_div_comm, Rat.num_div_den, div_eq_mul_inv a b, Rat.inv_def']
  rw [Rat.divInt_eq_div]
  push_cast
  ring_nf

theorem pyNeg_eq (a : ℚ) : pyNeg a = -a := by
  rw [pyNeg, Rat.divInt_eq_div]
  push_cast
  rw [neg_div, Rat.num_div_den]

theorem pyAbs_eq (a : ℚ) : pyAbs a = |a| := by
  rw [pyAbs]
  rcases lt_or_le a.num 0 with h | h
  · have ha : a < 0 := by rwa [← not_le, ← Rat.num_nonneg, not_le]
    rw [if_pos h, pyNeg_eq, abs_of_neg ha]
  · have ha : 0 ≤ a := by rwa [← Rat.num_nonneg]
    rw [if_neg (not_lt.mpr h), abs_of_nonneg ha]

theorem qOfNat_eq (n : ℕ) : qOfNat n = (n : ℚ) := by
  rw [qOfNat, Rat.divInt_eq_div]
  push_cast
  simp

/-! ## Python string primitives -/

/-- Characters stripped by Python `str.strip()` with no argument
(ASCII whitespace, which is all that occurs in the data of this service). -/
def isPySpace (c : Char) : Bool :=
  c == ' ' || c == '\t' || c == '\n' || c == '\r' || c == '\x0b' || c == '\x0c'

/-- Python `str.strip()`: drop whitespace from both ends. -/
def pyStrip (s : String) : String :=
  ⟨((s.data.dropWhile isPySpace).reverse.dropWhile isPySpace).reverse⟩

/-- Python `str.lstrip(chars)`: drop leading characters belonging to `set`. -/
def pyLstrip (set : List Char) (s : String) : String :=
  ⟨s.data.dropWhile (fun c => set.contains c)⟩

/-- Python `str.startswith(c)` for a single-character argument. -/
def startsWithChar (s : String) (c : Char) : Bool :=
  match s.data with
  | [] => false
  | d :: _ => d == c

/-- Splitting on a non-empty separator, as Python `str.split(sep)`
(keeps empty chunks). Fuelled recursion; fuel `length + 1` always suffices. -/
def splitOnL (sep : List Char) : Nat → List Char → List (List Char)
  | 0, cs => [cs]
  | Nat.succ fuel, cs =>
    if sep.isPrefixOf cs then
      [] :: splitOnL sep fuel (cs.drop sep.length)
    else
      match cs with
      | [] => [[]]
      | c :: t =>
        match splitOnL sep fuel t with
        | [] => [[c]]
        | h :: r => (c :: h) :: r

/-- Python `str.split(sep)` for a non-empty separator. -/
def pySplit (sep : String) (s : String) : List String :=
  (splitOnL sep.data (s.data.length + 1) s.data).map (fun l => ⟨l⟩)

/-- Python `str.replace(f, t)` for single-character pattern and replacement. -/
def charReplace (f t : Char) (s : String) : String :=
  ⟨s.data.map (fun c => if c == f then t else c)⟩

/-- Python `str.lower()` (ASCII behaviour, which is all this service needs). -/
def pyLower (s : String) : String :=
  ⟨s.data.map Char.toLower⟩

/-! ## Python `float(str)` (sign, digits, optional fraction and exponent;
the `inf`/`nan` and underscore digit-group forms are not modelled) -/

def digitVal (c : Char) : Nat := c.toNat - '0'.toNat

def digitsToNat (l : List Char) : Nat := l.foldl (fun a c => a * 10 + digitVal c) 0

/-- Consume an optional leading sign; `true` means negative. -/
def parseSign : List Char → Bool × List Char
  | '-' :: t => (true, t)
  | '+' :: t => (false, t)
  | l => (false, l)

def pyExpPart (mant : ℚ) (t : List Char) : Option ℚ :=
  let (eneg, t1) := parseSign t
  let ed := t1.takeWhile Char.isDigit
  let t2 := t1.dropWhile Char.isDigit
  if ed.isEmpty || !t2.isEmpty then none
  else
    let e : ℚ := qOfNat (10 ^ digitsToNat ed)
    some (if eneg then pyDiv mant e else pyMul mant e)

/-- Python `float(s)`: `none` models a raised `ValueError`. -/
def pyFloat (s : String) : Option ℚ :=
  let cs0 := ((s.data.dropWhile isPySpace).reverse.dropWhile isPySpace).reverse
  let (neg, cs1) := parseSign cs0
  let ip := cs1.takeWhile Char.isDigit
  let cs2 := cs1.dropWhile Char.isDigit
  let (fp, cs3) :=
    match cs2 with
    | '.' :: t => (t.takeWhile Char.isDigit, t.dropWhile Char.isDigit)
    | _ => ([], cs2)
  if ip.isEmpty && fp.isEmpty then none
  else
    let mant : ℚ := pyAdd (qOfNat (digitsToNat ip))
      (pyDiv (qOfNat (digitsToNat fp)) (qOfNat (10 ^ fp.length)))
    let mant := if neg then pyNeg mant else mant
    match cs3 with
    | [] => some mant
    | 'e' :: t => pyExpPart mant t
    | 'E' :: t => pyExpPart mant t
    | _ => none

example : pyFloat "50" = some 50 := by decide
example : pyFloat "abc" = none := by decide
example : pyFloat " 2.5 " = some (5/2) := by norm_num [(by decide : pyFloat " 2.5 " = some (Rat.divInt 5 2)), Rat.divInt_eq_div]
example : pyFloat "-1e2" = some (-100) := by decide
example : pyFloat "0" = some 0 := by decide
example : pyFloat "" = none := by decide
example : pyFloat "1." = some 1 := by decide
example : pyFloat ".5e1" = some 5 := by decide

/-! ## JSON values and `json.loads`
(standard JSON subset: literals, numbers, strings with the usual escapes,
arrays, objects; numbers are exact rationals) -/

inductive Json where
  | null : Json
  | bool : Bool → Json
  | num : ℚ → Json
  | str : String → Json
  | arr : List Json → Json
  | obj : List (String × Json) → Json

/-- Python truthiness of a decoded JSON value (`if recommendations:`). -/
def jsonTruthy : Json → Bool
  | .null => false
  | .bool b => b
  | .num q => decide (q ≠ 0)
  | .str s => decide (s ≠ "")
  | .arr l => !l.isEmpty
  | .obj l => !l.isEmpty

def skipWs (cs : List Char) : List Char :=
  cs.dropWhile (fun c => c == ' ' || c == '\t' || c == '\n' || c == '\r')

/-- Value of one hexadecimal digit, by code point arithmetic. -/
def hexVal (c : Char) : Option Nat :=
  let n := c.toNat
  if 48 ≤ n && n ≤ 57 then some (n - 48)
  else if 97 ≤ n && n ≤ 102 then some (n - 87)
  else if 65 ≤ n && n ≤ 70 then some (n - 55)
  else none

/-- The short escape sequences of JSON strings, as a lookup table
(escape letter paired with the character it denotes). -/
def escPairs : List (Char × Char) :=
  [('"', '"'), ('\\', '\\'), ('/', '/'), ('b', '\x08'), ('f', '\x0c'),
   ('n', '\n'), ('r', '\r'), ('t', '\t')]

def escChar (c : Char) : Option Char :=
  (escPairs.find? (fun p => p.1 == c)).map (fun p => p.2)

/-- Body of a JSON string after the opening quote: returns the decoded
characters and the remainder after the closing quote. -/
def parseJStr : List Char → Option (List Char × List Char)
  | [] => none
  | '"' :: rest => some ([], rest)
  | '\\' :: 'u' :: a :: b :: c :: d :: rest =>
    match hexVal a, hexVal b, hexVal c, hexVal d with
    | some ha, some hb, some hc, some hd =>
      match parseJStr rest with
      | some (l, r) => some (Char.ofNat (((ha * 16 + hb) * 16 + hc) * 16 + hd) :: l, r)
      | none => none
    | _, _, _, _ => none
  | '\\' :: e :: rest =>
    match escChar e with
    | some ce =>
      match parseJStr rest with
      | some (l, r) => some (ce :: l, r)
      | none => none
    | none => none
  | c :: rest =>
    match parseJStr rest with
    | some (l, r) => some (c :: l, r)
    | none => none

/-- A JSON number: sign, integer part, optional fraction, optional exponent. -/
def parseJNum (cs : List Char) : Option (Json × List Char) :=
  let (neg, cs1) := match cs with
    | '-' :: t => (true, t)
    | l => (false, l)
  let ip := cs1.takeWhile Char.isDigit
  let cs2 := cs1.dropWhile Char.isDigit
  if ip.isEmpty then none
  else
    let fracStep : Option (List Char × List Char) := match cs2 with
      | '.' :: t =>
        let fp := t.takeWhile Char.isDigit
        if fp.isEmpty then none else some (fp, t.dropWhile Char.isDigit)
      | _ => some ([], cs2)
    match fracStep with
    | none => none
    | some (fp, cs3) =>
      let base : ℚ := pyAdd (qOfNat (digitsToNat ip))
        (pyDiv (qOfNat (digitsToNat fp)) (qOfNat (10 ^ fp.length)))
      let base := if neg then pyNeg base else base
      match cs3 with
      | 'e' :: t =>
        match pyExpPart base t with
        | some v => some (.num v, [])
        | none => none
      | 'E' :: t =>
        match pyExpPart base t with
        | some v => some (.num v, [])
        | none => none
      | _ => some (.num base, cs3)

mutual

def parseVal : Nat → List Char → Option (Json × List Char)
  | 0, _ => none
  | Nat.succ fuel, cs =>
    match skipWs cs with
    | 'n' :: 'u' :: 'l' :: 'l' :: rest => some (.null, rest)
    | 't' :: 'r' :: 'u' :: 'e' :: rest => some (.bool true, rest)
    | 'f' :: 'a' :: 'l' :: 's' :: 'e' :: rest => some (.bool false, rest)
    | '"' :: rest =>
      match parseJStr rest with
      | some (l, r) => some (.str ⟨l⟩, r)
      | none => none
    | '[' :: rest =>
      match skipWs rest with
      | ']' :: rest2 => some (.arr [], rest2)
      | cs2 =>
        match parseVal fuel cs2 with
        | none => none
        | some (v, rest2) =>
          match parseArrTail fuel rest2 with
          | none => none
          | some (l, rest3) => some (.arr (v :: l), rest3)
    | '\x7b' :: rest =>
      match skipWs rest with
      | '\x7d' :: rest2 => some (.obj [], rest2)
      | cs2 =>
        match parseMember fuel cs2 with
        | none => none
        | some (kv, rest2) =>
          match parseObjTail fuel rest2 with
          | none => none
          | some (l, rest3) => some (.obj (kv :: l), rest3)
    | cs1 => parseJNum cs1

def parseArrTail : Nat → List Char → Option (List Json × List Char)
  | 0, _ => none
  | Nat.succ fuel, cs =>
    match skipWs cs with
    | ',' :: rest =>
      match parseVal fuel rest with
      | none => none
      | some (v, rest2) =>
        match parseArrTail fuel rest2 with
        | none => none
        | some (l, rest3) => some (v :: l, rest3)
    | ']' :: rest => some ([], rest)
    | _ => none

def parseMember : Nat → List Char → Option ((String × Json) × List Char)
  | 0, _ => none
  | Nat.succ fuel, cs =>
    match skipWs cs with
    | '"' :: rest =>
      match parseJStr rest with
      | none => none
      | some (k, rest2) =>
        match skipWs rest2 with
        | ':' :: rest3 =>
          match parseVal fuel rest3 with
          | none => none
          | some (v, rest4) => some ((⟨k⟩, v), rest4)
        | _ => none
    | _ => none

def parseObjTail : Nat → List Char → Option (List (String × Json) × List Char)
  | 0, _ => none
  | Nat.succ fuel, cs =>
    match skipWs cs with
    | ',' :: rest =>
      match parseMember fuel rest with
      | none => none
      | some (kv, rest2) =>
        match parseObjTail fuel rest2 with
        | none => none
        | some (l, rest3) => some (kv :: l, rest3)
    | '\x7d' :: rest => some ([], rest)
    | _ => none

end

/-- Python `json.loads`: parse one JSON document, allowing surrounding
whitespace, requiring the whole input to be consumed.
`Except.error ()` models a raised `json.JSONDecodeError`. -/
def jsonLoads (s : String) : Except Unit Json :=
  match parseVal (s.length + 1) s.data with
  | none => .error ()
  | some (v, rest) => if (skipWs rest).isEmpty then .ok v else .error ()

example : jsonLoads "42" = .ok (.num 42) := rfl
example : jsonLoads " [1, 2] " = .ok (.arr [.num 1, .num 2]) := rfl
example : (jsonLoads "not json").isOk = false := by decide
example : jsonLoads "[\"a\", \"b\"]" = .ok (.arr [.str "a", .str "b"]) := rfl
example : jsonLoads "null" = .ok .null := rfl
example : jsonLoads "[]" = .ok (.arr []) := rfl
example : jsonLoads "[1," = .error () := rfl

/-! ## `app/services/llm_service.py` -/

/-- Behaviour of the external Groq text service for one invocation:
the credential is absent (`noKey`), the call raises
(transport failure, timeout, malformed transport response — all caught by
the surrounding `except Exception`), or the call returns message text. -/
inductive LLMBehavior where
  | noKey : LLMBehavior
  | raiseExc : LLMBehavior
  | returns : String → LLMBehavior

/-- A single-quote character, used inside fallback message texts. -/
def sq : String := ⟨[Char.ofNat 39]⟩

/-- `get_fallback_recommendations(crop, disease, language)`:
`fallback.get(language, fallback["en"])` over the static two-language table. -/
def get_fallback_recommendations (crop disease language : String) : List String :=
  let en : List String := [
    "Remove and destroy infected " ++ pyLower crop ++ " plant parts immediately",
    "Apply appropriate fungicide or pesticide for " ++ charReplace '_' ' ' disease,
    "Improve air circulation between plants",
    "Avoid overhead watering to reduce moisture on leaves",
    "Monitor neighboring plants for similar symptoms",
    "Consult local agricultural extension officer for treatment"]
  let hi : List String := [
    "संक्रमित " ++ crop ++ " पौधे के हिस्सों को तुरंत हटा दें और नष्ट करें",
    charReplace '_' ' ' disease ++ " के लिए उपयुक्त फफूंदनाशक या कीटनाशक लगाएं",
    "पौधों के बीच वायु संचलन में सुधार करें",
    "पत्तियों पर नमी कम करने के लिए ऊपरी सिंचाई से बचें",
    "समान लक्षणों के लिए पड़ोसी पौधों की निगरानी करें",
    "उपचार के लिए स्थानीय कृषि विस्तार अधिकारी से परामर्श करें"]
  if language = "en" then en else if language = "hi" then hi else en

/-- `get_fallback_chat_response(question, language)`. -/
def get_fallback_chat_response (question language : String) : String :=
  let en := "Thank you for your question: " ++ sq ++ question ++ sq ++
    ". The AgroWise AI system would normally provide expert farming advice. " ++
    "Please ensure the system is properly configured for real-time responses."
  let hi := "आपके प्रश्न के लिए धन्यवाद: " ++ sq ++ question ++ sq ++
    "। AgroWise AI सिस्टम सामान्य रूप से विशेषज्ञ कृषि सलाह प्रदान करता है। " ++
    "कृपया सुनिश्चित करें कि सिस्टम वास्तविक समय प्रतिक्रियाओं के लिए ठीक से कॉन्फ़िगर किया गया है।"
  if language = "en" then en else if language = "hi" then hi else en

/-- One line of the newline-splitting fallback parse:
`line.strip().lstrip('-').lstrip('•').lstrip('*').lstrip('1234567890.').strip()`. -/
def cleanLine (line : String) : String :=
  pyStrip (pyLstrip "1234567890.".data
    (pyLstrip ['*'] (pyLstrip ['•'] (pyLstrip ['-'] (pyStrip line)))))

/-- The guard of the line comprehension:
`line.strip() and not line.strip().startswith('[') and not line.strip().startswith(']')`. -/
def keepRawLine (line : String) : Bool :=
  pyStrip line != "" && !startsWithChar (pyStrip line) '[' && !startsWithChar (pyStrip line) ']'

/-- The `JSONDecodeError` branch of `get_disease_recommendations`:
split on newlines, clean markers, keep lines longer than 10 characters,
cap at 6. -/
def heuristicRecs (t : String) : List String :=
  let lines := pySplit "\n" t
  let recs := (lines.filter keepRawLine).map cleanLine
  (recs.filter (fun r => r.length > 10)).take 6

/-- `get_disease_recommendations(crop, disease, language)` as a function of
the text-service behaviour. The Python function is annotated `-> list` but
can in fact return any truthy decoded JSON value, so the result type is
`Json`; a returned list of strings `l` is represented as
`Json.arr (l.map Json.str)`. -/
def get_disease_recommendations (llm : LLMBehavior) (crop disease language : String) : Json :=
  let fallback : Json := .arr ((get_fallback_recommendations crop disease language).map .str)
  match llm with
  | .noKey => fallback
  | .raiseExc => fallback
  | .returns text =>
    let t := pyStrip text
    match jsonLoads t with
    | .ok (.arr l) => if l.length > 0 then .arr (l.take 6) else fallback
    | .ok j => if jsonTruthy j then j else fallback
    | .error _ =>
      let recs := heuristicRecs t
      if !recs.isEmpty then .arr (recs.map .str) else fallback

/-- `get_chat_response(question, language)` as a function of the
text-service behaviour: returned text is stripped and passed through
unconditionally; credential absence and exceptions fall back. -/
def get_chat_response (llm : LLMBehavior) (question language : String) : String :=
  match llm with
  | .noKey => get_fallback_chat_response question language
  | .raiseExc => get_fallback_chat_response question language
  | .returns text => pyStrip text

example : get_chat_response (.returns "  ") "q" "en" = "" := rfl
example : get_disease_recommendations (.returns "42") "Apple" "Black_rot" "en" = .num 42 := rfl
example : get_disease_recommendations (.returns "[\"a\", \"b\"]") "Apple" "Black_rot" "en" = .arr [.str "a", .str "b"] := rfl
example : heuristicRecs "- first line of advice\n x\n[skip me\n2. second line of advice" = ["first line of advice", "second line of advice"] := rfl

/-! ## `app/routes/predict.py` -/

/-- The `class_names` table of `predict.py` (38 entries). -/
def class_names : List String := [
  "Apple___Apple_scab", "Apple___Black_rot", "Apple___Cedar_apple_rust", "Apple___healthy",
  "Blueberry___healthy", "Cherry_(including_sour)___Powdery_mildew", "Cherry_(including_sour)___healthy",
  "Corn_(maize)___Cercospora_leaf_spot Gray_leaf_spot", "Corn_(maize)___Common_rust_",
  "Corn_(maize)___Northern_Leaf_Blight", "Corn_(maize)___healthy", "Grape___Black_rot",
  "Grape___Esca_(Black_Measles)", "Grape___Leaf_blight_(Isariopsis_Leaf_Spot)", "Grape___healthy",
  "Orange___Haunglongbing_(Citrus_greening)", "Peach___Bacterial_spot", "Peach___healthy",
  "Pepper,_bell___Bacterial_spot", "Pepper,_bell___healthy", "Potato___Early_blight",
  "Potato___Late_blight", "Potato___healthy", "Raspberry___healthy", "Soybean___healthy",
  "Squash___Powdery_mildew", "Strawberry___Leaf_scorch", "Strawberry___healthy",
  "Tomato___Bacterial_spot", "Tomato___Early_blight", "Tomato___Late_blight", "Tomato___Leaf_Mold",
  "Tomato___Septoria_leaf_spot", "Tomato___Spider_mites Two-spotted_spider_mite",
  "Tomato___Target_Spot", "Tomato___Tomato_Yellow_Leaf_Curl_Virus", "Tomato___Tomato_mosaic_virus",
  "Tomato___healthy"]

/-- Maximum of a score list (`none` on the empty list). -/
def listMax : List ℚ → Option ℚ
  | [] => none
  | x :: t =>
    match listMax t with
    | none => some x
    | some m => some (if x < m then m else x)

/-- Index of the first occurrence of `m`. -/
def findIdxQ (m : ℚ) : List ℚ → Nat
  | [] => 0
  | x :: t => if x = m then 0 else findIdxQ m t + 1

/-- `np.argmax` over one score row: index of the first occurrence of the
maximum; `none` models the `ValueError` numpy raises on an empty vector. -/
def argmaxFirst (l : List ℚ) : Option Nat :=
  match listMax l with
  | none => none
  | some m => some (findIdxQ m l)

/-- The canned recommendation list of the healthy branch of `predict`. -/
def healthy_recommendations (crop : String) : List String :=
  ["Your " ++ crop ++ " plant appears healthy!",
   "Continue regular watering and fertilizing schedule",
   "Monitor for any changes in leaf color or texture",
   "Ensure proper sunlight and air circulation"]

structure PredictResponse where
  predicted_class : String
  predicted_crop : String
  isHealthy : String
  predicted_diseases : String
  confidence_percentage : ℚ
  recommendations : Json

/-- The `predict` route handler, given the score row `scores` the model emits for
the uploaded image and the text-service behaviour `llm`. `Except.error ()`
models the `except Exception` handler re-raising `HTTPException(500)`.
The `Bool` paired with the response records whether
`get_disease_recommendations` was invoked (the source calls it before the
healthy-branch test, so it is `true` on every successful path). -/
def predict (llm : LLMBehavior) (scores : List ℚ) (language : String) :
    Except Unit (PredictResponse × Bool) :=
  match argmaxFirst scores with
  | none => .error ()
  | some idx =>
    match scores.get? idx with
    | none => .error ()
    | some sc =>
      match class_names.get? idx with
      | none => .error ()
      | some cls =>
        match pySplit "___" cls with
        | [c, d] =>
          let recs := get_disease_recommendations llm c d language
          if d = "healthy" then
            .ok ({ predicted_class := cls, predicted_crop := c, isHealthy := "Healthy",
                   predicted_diseases := "Null", confidence_percentage := pyMul sc 100,
                   recommendations := .arr ((healthy_recommendations c).map .str) }, true)
          else
            .ok ({ predicted_class := cls, predicted_crop := c, isHealthy := "Unhealthy",
                   predicted_diseases := d, confidence_percentage := pyMul sc 100,
                   recommendations := recs }, true)
        | _ => .error ()

example : pySplit "___" "Apple___Apple_scab" = ["Apple", "Apple_scab"] := rfl
example : argmaxFirst [1, 3, 3, 2] = some 1 := rfl
example : (class_names.all (fun n => (pySplit "___" n).length == 2)) = true := rfl

/-! ## `app/routes/market_prices.py` -/

/-- One raw record of the data.gov.in feed. Field values arrive as JSON
record fields and are modelled as optional strings (`none` models an
absent key, for which `record.get(k, default)` yields the default). -/
structure RawRecord where
  commodity : Option String := none
  modal_price : Option String := none
  min_price : Option String := none
  max_price : Option String := none
  market : Option String := none
  state : Option String := none
  district : Option String := none
  arrival_date : Option String := none

/-- Python truthiness of `record.get(k, 0)`: the integer default `0` is
falsy, a present string is truthy iff non-empty. -/
def fieldTruthy : Option String → Bool
  | none => false
  | some s => s != ""

/-- `float(record.get(k, 0))`: `float(0)` for an absent field, else
`float` of the string. -/
def pyFloatOfField : Option String → Option ℚ
  | none => some 0
  | some s => pyFloat s

/-- `price = float(modal_price) if modal_price else float(max_price)`
wrapped in `try/except → price = 0`. -/
def resolvedPrice (r : RawRecord) : ℚ :=
  match (if fieldTruthy r.modal_price then pyFloatOfField r.modal_price
         else pyFloatOfField r.max_price) with
  | some q => q
  | none => 0

/-- `(float(max_price) - float(min_price)) / float(modal_price) * 100 if
modal_price else 0`; `none` models a raised `ValueError`, `TypeError` or
`ZeroDivisionError`, which the source maps to the stable trend. -/
def varianceOf (r : RawRecord) : Option ℚ :=
  if fieldTruthy r.modal_price then
    match pyFloatOfField r.max_price, pyFloatOfField r.min_price,
        pyFloatOfField r.modal_price with
    | some mx, some mn, some md =>
      if md = 0 then none else some (pyMul (pyDiv (pySub mx mn) md) 100)
    | _, _, _ => none
  else some 0

/-- The trend classification of `get_market_prices`. -/
def trendChange (r : RawRecord) : String × ℚ :=
  match varianceOf r with
  | none => ("stable", 0)
  | some v =>
    if v > 5 then ("up", pyAbs v)
    else if v < -5 then ("down", pyAbs v)
    else ("stable", 0)

/-- Round-half-to-even on an exact rational, the semantics of Python
`round` (idealised: CPython rounds binary floats, this rounds the exact
value). -/
def roundHalfEven (q : ℚ) : ℤ :=
  let f := Int.fdiv q.num q.den
  let r := pySub q (Rat.divInt f 1)
  if r < Rat.divInt 1 2 then f
  else if Rat.divInt 1 2 < r then f + 1
  else if f % 2 = 0 then f else f + 1

/-- Python `round(q, n)`. -/
def pyRound (n : Nat) (q : ℚ) : ℚ :=
  Rat.divInt (roundHalfEven (pyMul q (qOfNat (10 ^ n)))) (10 ^ n)

/-- One `CropPriceView` entry of the response (`crop_data` in the source). -/
structure CropView where
  name : String
  price : ℚ
  unit : String
  trend : String
  change : ℚ
  market : String
  state : String
  district : String
  date : String

/-- The `crop_data` dictionary built for a retained record. -/
def mkCropView (name : String) (price : ℚ) (r : RawRecord) : CropView :=
  { name := name
    price := pyRound 2 price
    unit := "quintal"
    trend := (trendChange r).1
    change := pyRound 1 (trendChange r).2
    market := r.market.getD ""
    state := r.state.getD ""
    district := r.district.getD ""
    date := r.arrival_date.getD "" }

/-- `record.get("commodity", "Unknown")`. -/
def recName (r : RawRecord) : String := r.commodity.getD "Unknown"

/-- The record loop of `get_market_prices`: `seen` is the
`seen_commodities` set. The name is added to `seen` before the
zero-price test, exactly as in the source. -/
def processRecords : List RawRecord → List String → List CropView
  | [], _ => []
  | r :: rest, seen =>
    let name := recName r
    if name ∈ seen then processRecords rest seen
    else
      let price := resolvedPrice r
      if price = 0 then processRecords rest (name :: seen)
      else mkCropView name price r :: processRecords rest (name :: seen)

/-- Query parameters forwarded verbatim to the upstream feed. -/
structure MarketQuery where
  state : Option String
  commodity : Option String
  limit : Nat

/-- Outcome of the one upstream fetch: a transport failure
(`requests` exception or non-2xx status), a JSON body without the
`"records"` field, or a list of raw records. -/
inductive UpstreamResult where
  | transportError : UpstreamResult
  | noRecords : UpstreamResult
  | records : List RawRecord → UpstreamResult

/-- The JSON body returned by the market endpoints. -/
structure MarketResponse where
  success : Bool
  message : Option String
  count : Option Nat
  crops : List CropView

/-- `get_market_prices(state, commodity, limit)` as a function of the
upstream feed behaviour `fetch`. `Except.error n` models a raised
`HTTPException(status_code = n)`. -/
def get_market_prices (fetch : MarketQuery → UpstreamResult)
    (state commodity : Option String) (limit : Nat) : Except Nat MarketResponse :=
  match fetch ⟨state, commodity, limit⟩ with
  | .transportError => .error 503
  | .noRecords => .ok ⟨false, some "No data available", none, []⟩
  | .records l =>
    let crops := processRecords l []
    .ok ⟨true, none, some crops.length, crops⟩

/-- Insertion into a descending-by-key list, placing the new element after
every element of key ≥ its own (the behaviour of the stable Python
`sorted(..., reverse=True)` when elements arrive left to right). -/
def insertDescBy {α : Type} (key : α → ℚ) (a : α) : List α → List α
  | [] => [a]
  | b :: t => if key a ≤ key b then b :: insertDescBy key a t else a :: b :: t

/-- Stable descending sort by `key`: Python `sorted(l, key=key, reverse=True)`. -/
def sortDescBy {α : Type} (key : α → ℚ) (l : List α) : List α :=
  l.foldl (fun acc a => insertDescBy key a acc) []

/-- `abs(x["change"])`, the sort key of `get_trending_crops`. -/
def absChange (c : CropView) : ℚ := pyAbs c.change

/-- The sample bound `get_trending_crops` passes to `get_market_prices`. -/
def trendingSampleBound : Nat := 200

/-- `get_trending_crops(state, limit)`. -/
def get_trending_crops (fetch : MarketQuery → UpstreamResult)
    (state : Option String) (limit : Nat) : Except Nat MarketResponse :=
  match get_market_prices fetch state none trendingSampleBound with
  | .error e => .error e
  | .ok result =>
    if result.success then
      let crops := (sortDescBy absChange result.crops).take limit
      .ok ⟨true, none, some crops.length, crops⟩
    else .ok result

example : pyRound 2 (Rat.divInt 1234567 10000) = Rat.divInt 12346 100 := rfl
example : pyRound 1 (Rat.divInt 25 100) = Rat.divInt 2 10 := rfl
example : pyRound 1 (Rat.divInt 35 100) = Rat.divInt 4 10 := rfl
example : resolvedPrice { modal_price := some "abc", max_price := some "50" } = 0 := rfl
example : resolvedPrice { max_price := some "50" } = 50 := rfl
example : resolvedPrice { max_price := some "0" } = 0 := rfl
example : (sortDescBy id [1, 9, 3, 7, 2]).take 3 = [9, 7, 3] := rfl

/-! ## Properties of `argmaxFirst` -/

theorem listMax_mem {l : List ℚ} {m : ℚ} (h : listMax l = some m) : m ∈ l := by
  induction l with
  | nil => simp [listMax] at h
  | cons x t ih =>
    rw [listMax] at h
    cases ht : listMax t with
    | none => rw [ht] at h; injection h with h; simp [h.symm]
    | some mt =>
      rw [ht] at h; injection h with h
      by_cases hx : x < mt
      · rw [if_pos hx] at h; simp [ih (ht.trans (congrArg some h))]
      · rw [if_neg hx] at h; simp [h.symm]

theorem listMax_le {l : List ℚ} {m : ℚ} (h : listMax l = some m) :
    ∀ x ∈ l, x ≤ m := by
  induction l generalizing m with
  | nil => simp
  | cons x t ih =>
    rw [listMax] at h
    cases ht : listMax t with
    | none =>
      rw [ht] at h; injection h with h
      have : t = [] := by
        cases t with
        | nil => rfl
        | cons y u => rw [listMax] at ht; cases hy : listMax u <;> rw [hy] at ht <;> cases ht
      subst this; simp [h]
    | some mt =>
      rw [ht] at h; injection h with h
      intro y hy
      rcases List.mem_cons.mp hy with rfl | hyt
      · by_cases hx : y < mt
        · rw [if_pos hx] at h; exact h ▸ le_of_lt hx
        · rw [if_neg hx] at h; exact le_of_eq h
      · have hle := ih ht y hyt
        by_cases hx : x < mt
        · rw [if_pos hx] at h; exact h ▸ hle
        · rw [if_neg hx] at h; exact h ▸ le_trans hle (not_lt.mp hx)

theorem findIdxQ_get {l : List ℚ} {m : ℚ} (h : m ∈ l) :
    l.get? (findIdxQ m l) = some m := by
  induction l with
  | nil => simp at h
  | cons x t ih =>
    rw [findIdxQ]
    by_cases hx : x = m
    · rw [if_pos hx, List.get?_cons_zero, hx]
    · rw [if_neg hx]
      rcases List.mem_cons.mp h with rfl | hmt
      · exact absurd rfl hx
      · rw [List.get?_cons_succ]; exact ih hmt

theorem findIdxQ_first {l : List ℚ} {m : ℚ} :
    ∀ j, j < findIdxQ m l → ∀ x, l.get? j = some x → x ≠ m := by
  induction l with
  | nil => intro j hj x hx; simp at hx
  | cons y t ih =>
    intro j hj x hx
    rw [findIdxQ] at hj
    by_cases hy : y = m
    · rw [if_pos hy] at hj; exact absurd hj (Nat.not_lt_zero j)
    · rw [if_neg hy] at hj
      cases j with
      | zero =>
        rw [List.get?_cons_zero] at hx
        injection hx with hx
        exact hx ▸ hy
      | succ j =>
        rw [List.get?_cons_succ] at hx
        exact ih j (Nat.lt_of_succ_lt_succ hj) x hx

theorem argmaxFirst_spec {l : List ℚ} {i : Nat} (h : argmaxFirst l = some i) :
    ∃ m, l.get? i = some m ∧ m ∈ l ∧ (∀ x ∈ l, x ≤ m) ∧
      ∀ j, j < i → ∀ x, l.get? j = some x → x < m := by
  rw [argmaxFirst] at h
  cases hm : listMax l with
  | none => rw [hm] at h; cases h
  | some m =>
    rw [hm] at h; injection h with h
    subst h
    refine ⟨m, findIdxQ_get (listMax_mem hm), listMax_mem hm, listMax_le hm, ?_⟩
    intro j hj x hx
    have hne := findIdxQ_first j hj x hx
    have hxl : x ∈ l := List.get?_mem hx
    exact lt_of_le_of_ne (listMax_le hm x hxl) hne

theorem argmaxFirst_isSome {l : List ℚ} (h : l ≠ []) : ∃ i, argmaxFirst l = some i := by
  cases l with
  | nil => exact absurd rfl h
  | cons x t =>
    rw [argmaxFirst, listMax]
    cases ht : listMax t <;> exact ⟨_, rfl⟩

/-! ## Facts about the class table -/

theorem class_names_all_split :
    class_names.all (fun n => (pySplit "___" n).length == 2) = true := rfl

theorem split_pair_of_mem {cls : String} (h : cls ∈ class_names) :
    ∃ c d, pySplit "___" cls = [c, d] := by
  have h2 := List.all_eq_true.mp class_names_all_split cls h
  have hlen : (pySplit "___" cls).length = 2 := by simpa using h2
  exact List.length_eq_two.mp hlen

theorem get?_some_of_lt {α : Type} {l : List α} {i : Nat} (h : i < l.length) :
    ∃ x, l.get? i = some x := by
  cases hc : l.get? i with
  | none => exact absurd (List.get?_eq_none.mp hc) (not_le.mpr h)
  | some x => exact ⟨x, rfl⟩

theorem lt_length_of_get?_some {α : Type} {l : List α} {i : Nat} {x : α}
    (h : l.get? i = some x) : i < l.length := by
  by_contra hge
  rw [List.get?_eq_none.mpr (not_lt.mp hge)] at h
  cases h

/-- C8: for every valid score vector (length equal to the class-table
length), the decoder succeeds, selects the lowest index among tied maxima,
and the reported confidence equals 100 times the maximum score. -/
theorem C8_decoder_argmax (llm : LLMBehavior) (scores : List ℚ) (lang : String)
    (h : scores.length = class_names.length) :
    ∃ i m resp b, predict llm scores lang = .ok (resp, b) ∧
      argmaxFirst scores = some i ∧ scores.get? i = some m ∧ m ∈ scores ∧
      (∀ x ∈ scores, x ≤ m) ∧
      (∀ j, j < i → ∀ x, scores.get? j = some x → x < m) ∧
      resp.confidence_percentage = 100 * m := by
  have hne : scores ≠ [] := by
    intro he
    rw [he] at h
    exact absurd h (by decide)
  obtain ⟨i, hi⟩ := argmaxFirst_isSome hne
  obtain ⟨m, hgm, hmem, hle, hfirst⟩ := argmaxFirst_spec hi
  have hilen : i < scores.length := lt_length_of_get?_some hgm
  have hic : i < class_names.length := h ▸ hilen
  obtain ⟨cls, hcls⟩ := get?_some_of_lt hic
  obtain ⟨c, d, hsplit⟩ := split_pair_of_mem (List.get?_mem hcls)
  have hconf : pyMul m 100 = 100 * m := by rw [pyMul_eq]; ring
  have hgm2 : scores[i]? = some m := by rw [← List.get?_eq_getElem?]; exact hgm
  have hcls2 : class_names[i]? = some cls := by rw [← List.get?_eq_getElem?]; exact hcls
  by_cases hd : d = "healthy"
  · subst hd
    refine ⟨i, m, ⟨cls, c, "Healthy", "Null", pyMul m 100,
      .arr ((healthy_recommendations c).map .str)⟩, true,
      ?_, hi, hgm, hmem, hle, hfirst, hconf⟩
    simp [predict, hi, hgm2, hcls2, hsplit]
  · refine ⟨i, m, ⟨cls, c, "Unhealthy", d, pyMul m 100,
      get_disease_recommendations llm c d lang⟩, true,
      ?_, hi, hgm, hmem, hle, hfirst, hconf⟩
    simp [predict, hi, hgm2, hcls2, hsplit, hd]

/-- C8 witness: a concrete 38-entry score vector with a tie between
indices 2 and 5; the decoder reports index 2 and confidence 500. -/
theorem C8_decoder_argmax_witness :
    ∃ i m resp b, predict .noKey
      [0, 1, 5, 0, 0, 5, 0, 0, 0, 0, 0, 0, 0, 0, 0, 0, 0, 0, 0,
       0, 0, 0, 0, 0, 0, 0, 0, 0, 0, 0, 0, 0, 0, 0, 0, 0, 0, 0] "en" = .ok (resp, b) ∧
      argmaxFirst
      [0, 1, 5, 0, 0, 5, 0, 0, 0, 0, 0, 0, 0, 0, 0, 0, 0, 0, 0,
       0, 0, 0, 0, 0, 0, 0, 0, 0, 0, 0, 0, 0, 0, 0, 0, 0, 0, 0] = some i ∧
      [0, 1, 5, 0, 0, 5, 0, 0, 0, 0, 0, 0, 0, 0, 0, 0, 0, 0, 0,
       (0:ℚ), 0, 0, 0, 0, 0, 0, 0, 0, 0, 0, 0, 0, 0, 0, 0, 0, 0, 0].get? i = some m ∧
      m ∈ [0, 1, 5, 0, 0, 5, 0, 0, 0, 0, 0, 0, 0, 0, 0, 0, 0, 0, 0,
       (0:ℚ), 0, 0, 0, 0, 0, 0, 0, 0, 0, 0, 0, 0, 0, 0, 0, 0, 0, 0] ∧
      (∀ x ∈ [0, 1, 5, 0, 0, 5, 0, 0, 0, 0, 0, 0, 0, 0, 0, 0, 0, 0, 0,
       (0:ℚ), 0, 0, 0, 0, 0, 0, 0, 0, 0, 0, 0, 0, 0, 0, 0, 0, 0, 0], x ≤ m) ∧
      (∀ j, j < i → ∀ x,
        [0, 1, 5, 0, 0, 5, 0, 0, 0, 0, 0, 0, 0, 0, 0, 0, 0, 0, 0,
         (0:ℚ), 0, 0, 0, 0, 0, 0, 0, 0, 0, 0, 0, 0, 0, 0, 0, 0, 0, 0].get? j = some x → x < m) ∧
      resp.confidence_percentage = 100 * m :=
  C8_decoder_argmax .noKey _ "en" (by rfl)

/-- A score row whose argmax lands on index 3, `"Apple___healthy"`. -/
def healthyScores : List ℚ :=
  [0, 0, 0, 1, 0, 0, 0, 0, 0, 0, 0, 0, 0, 0, 0, 0, 0, 0, 0,
   0, 0, 0, 0, 0, 0, 0, 0, 0, 0, 0, 0, 0, 0, 0, 0, 0, 0, 0]

/-- C4 counterexample: on a healthy classification the advisory pipeline
IS invoked (the `Bool` flag of `predict` is `true`: the source calls
`get_disease_recommendations` before the healthy-branch test), refuting
"the disease branch of the advisory pipeline is never invoked"; the response
itself is the canned healthy text. -/
theorem C4_counterexample :
    predict (.returns "text the pipeline would produce") healthyScores "en" =
      .ok ({ predicted_class := "Apple___healthy", predicted_crop := "Apple",
             isHealthy := "Healthy", predicted_diseases := "Null",
             confidence_percentage := 100,
             recommendations := .arr ((healthy_recommendations "Apple").map .str) },
           true) := rfl

/-- C4 amended: for every classification whose disease component equals
the sentinel `"healthy"`, the advisory pipeline is invoked but its output
is discarded (the response does not depend on the text-service behaviour):
the recommendations field is the statically defined healthy-branch canned
text and `isHealthy` marks the healthy outcome. -/
theorem C4_amended (llm : LLMBehavior) (scores : List ℚ) (lang : String)
    (i : Nat) (cls c : String)
    (hi : argmaxFirst scores = some i)
    (hcls : class_names.get? i = some cls)
    (hsplit : pySplit "___" cls = [c, "healthy"]) :
    ∃ resp, predict llm scores lang = .ok (resp, true) ∧
      resp.isHealthy = "Healthy" ∧
      resp.recommendations = .arr ((healthy_recommendations c).map .str) ∧
      resp.predicted_crop = c ∧ resp.predicted_diseases = "Null" ∧
      (∀ llm2, predict llm2 scores lang = predict llm scores lang) := by
  obtain ⟨m, hgm, hmem, hle, hfirst⟩ := argmaxFirst_spec hi
  have hgm2 : scores[i]? = some m := by rw [← List.get?_eq_getElem?]; exact hgm
  have hcls2 : class_names[i]? = some cls := by rw [← List.get?_eq_getElem?]; exact hcls
  refine ⟨⟨cls, c, "Healthy", "Null", pyMul m 100,
    .arr ((healthy_recommendations c).map .str)⟩,
    by simp [predict, hi, hgm2, hcls2, hsplit], rfl, rfl, rfl, rfl, ?_⟩
  intro llm2
  simp [predict, hi, hgm2, hcls2, hsplit]

/-- C4 witness: the amended statement at the concrete healthy score row. -/
theorem C4_witness :
    ∃ resp, predict .raiseExc healthyScores "hi" = .ok (resp, true) ∧
      resp.isHealthy = "Healthy" ∧
      resp.recommendations = .arr ((healthy_recommendations "Apple").map .str) ∧
      resp.predicted_crop = "Apple" ∧ resp.predicted_diseases = "Null" ∧
      (∀ llm2, predict llm2 healthyScores "hi" = predict .raiseExc healthyScores "hi") :=
  C4_amended .raiseExc healthyScores "hi" 3 "Apple___healthy" "Apple" rfl rfl rfl

/-- C5 counterexample: the score vector `[1]` has the wrong length
(1 ≠ 38) yet `predict` silently succeeds with class
`"Apple___Apple_scab"` instead of failing with a server error,
refuting "it never silently produces a ClassificationResult from a
wrong-length vector". -/
theorem C5_counterexample :
    [(1 : ℚ)].length ≠ class_names.length ∧
    predict .noKey [(1 : ℚ)] "en" =
      .ok ({ predicted_class := "Apple___Apple_scab", predicted_crop := "Apple",
             isHealthy := "Unhealthy", predicted_diseases := "Apple_scab",
             confidence_percentage := 100,
             recommendations :=
               .arr ((get_fallback_recommendations "Apple" "Apple_scab" "en").map .str) },
           true) :=
  ⟨by decide, rfl⟩

/-- C5 amended: the decoder fails with a server error exactly when the
argmax index does not fall inside the class table (in particular whenever
the vector is empty, or is longer than the table with its first maximum
beyond index 37); any vector whose argmax index is below the table length
— including every wrong-length vector with a small argmax index — is
decoded without any shape check. -/
theorem C5_amended (llm : LLMBehavior) (scores : List ℚ) (lang : String) :
    (argmaxFirst scores = none → predict llm scores lang = .error ()) ∧
    (∀ i, argmaxFirst scores = some i → class_names.length ≤ i →
      predict llm scores lang = .error ()) ∧
    (∀ i, argmaxFirst scores = some i → i < class_names.length →
      ∃ resp b, predict llm scores lang = .ok (resp, b)) := by
  refine ⟨?_, ?_, ?_⟩
  · intro h
    simp [predict, h]
  · intro i hi hge
    obtain ⟨m, hgm, hmem, hle, hfirst⟩ := argmaxFirst_spec hi
    have hgm2 : scores[i]? = some m := by rw [← List.get?_eq_getElem?]; exact hgm
    have hnone : class_names[i]? = none := by
      rw [← List.get?_eq_getElem?]
      exact List.get?_eq_none.mpr hge
    simp [predict, hi, hgm2, hnone]
  · intro i hi hlt
    obtain ⟨m, hgm, hmem, hle, hfirst⟩ := argmaxFirst_spec hi
    have hgm2 : scores[i]? = some m := by rw [← List.get?_eq_getElem?]; exact hgm
    obtain ⟨cls, hcls⟩ := get?_some_of_lt hlt
    have hcls2 : class_names[i]? = some cls := by rw [← List.get?_eq_getElem?]; exact hcls
    obtain ⟨c, d, hsplit⟩ := split_pair_of_mem (List.get?_mem hcls)
    by_cases hd : d = "healthy"
    · subst hd
      exact ⟨⟨cls, c, "Healthy", "Null", pyMul m 100,
        .arr ((healthy_recommendations c).map .str)⟩, true,
        by simp [predict, hi, hgm2, hcls2, hsplit]⟩
    · exact ⟨⟨cls, c, "Unhealthy", d, pyMul m 100,
        get_disease_recommendations llm c d lang⟩, true,
        by simp [predict, hi, hgm2, hcls2, hsplit, hd]⟩

/-- C5 witness: a 39-entry vector whose maximum sits at index 38 errors
(the out-of-table case), and the wrong-length vector `[1]` decodes
successfully (the silent case). -/
theorem C5_witness :
    predict .noKey
      [0, 0, 0, 0, 0, 0, 0, 0, 0, 0, 0, 0, 0, 0, 0, 0, 0, 0, 0, 0,
       0, 0, 0, 0, 0, 0, 0, 0, 0, 0, 0, 0, 0, 0, 0, 0, 0, 0, (1 : ℚ)] "en" = .error () ∧
    ∃ resp b, predict .noKey [(1 : ℚ)] "en" = .ok (resp, b) :=
  ⟨(C5_amended .noKey _ "en").2.1 38 rfl (by decide),
   (C5_amended .noKey _ "en").2.2 0 rfl (by decide)⟩

/-! ## Facts about the fallback bank and the heuristic parse -/

theorem fallback_recs_length (crop disease lang : String) :
    (get_fallback_recommendations crop disease lang).length = 6 := by
  simp only [get_fallback_recommendations]
  split_ifs <;> rfl

theorem string_append_ne_empty_left (a b : String) (ha : a ≠ "") : a ++ b ≠ "" := by
  intro h
  have hd := congrArg String.data h
  rw [String.data_append] at hd
  rcases List.append_eq_nil.mp hd with ⟨h1, _⟩
  exact ha (by cases a; cases h1; rfl)

theorem fallback_chat_ne_empty (question lang : String) :
    get_fallback_chat_response question lang ≠ "" := by
  simp only [get_fallback_chat_response]
  split_ifs <;>
    exact string_append_ne_empty_left _ _ (string_append_ne_empty_left _ _
      (string_append_ne_empty_left _ _ (string_append_ne_empty_left _ _
        (string_append_ne_empty_left _ _ (by decide)))))

theorem heuristicRecs_length_le (t : String) : (heuristicRecs t).length ≤ 6 := by
  simp only [heuristicRecs]
  rw [List.length_take]
  exact min_le_left _ _

/-- C10: for every language code other than `"en"` and `"hi"` — including
the otherwise-supported `"ta"`, `"te"`, `"pa"` — both fallback texts are
exactly the English fallback texts. -/
theorem C10_fallback_defaults_to_english (crop disease question lang : String)
    (h1 : lang ≠ "en") (h2 : lang ≠ "hi") :
    get_fallback_recommendations crop disease lang =
      get_fallback_recommendations crop disease "en" ∧
    get_fallback_chat_response question lang =
      get_fallback_chat_response question "en" := by
  constructor
  · simp only [get_fallback_recommendations]
    rw [if_neg h1, if_neg h2]
    simp
  · simp only [get_fallback_chat_response]
    rw [if_neg h1, if_neg h2]
    simp

/-- C10 witness: the three otherwise-supported codes all receive the
English fallback content. -/
theorem C10_witness :
    (get_fallback_recommendations "Apple" "Black_rot" "ta" =
       get_fallback_recommendations "Apple" "Black_rot" "en" ∧
     get_fallback_chat_response "How to grow rice?" "ta" =
       get_fallback_chat_response "How to grow rice?" "en") ∧
    (get_fallback_recommendations "Apple" "Black_rot" "te" =
       get_fallback_recommendations "Apple" "Black_rot" "en" ∧
     get_fallback_chat_response "How to grow rice?" "te" =
       get_fallback_chat_response "How to grow rice?" "en") ∧
    (get_fallback_recommendations "Apple" "Black_rot" "pa" =
       get_fallback_recommendations "Apple" "Black_rot" "en" ∧
     get_fallback_chat_response "How to grow rice?" "pa" =
       get_fallback_chat_response "How to grow rice?" "en") :=
  ⟨C10_fallback_defaults_to_english _ _ _ "ta" (by decide) (by decide),
   C10_fallback_defaults_to_english _ _ _ "te" (by decide) (by decide),
   C10_fallback_defaults_to_english _ _ _ "pa" (by decide) (by decide)⟩

/-- C9: when the service text parses as a non-empty JSON array, the
disease pipeline accepts it truncated to at most 6 entries; an 8-element
array is truncated to exactly 6. -/
theorem C9_truncates_to_six (crop disease lang t : String) (l : List Json)
    (hp : jsonLoads (pyStrip t) = .ok (.arr l)) (hne : l ≠ []) :
    get_disease_recommendations (.returns t) crop disease lang = .arr (l.take 6) ∧
    (l.take 6).length ≤ 6 ∧ (l.length = 8 → (l.take 6).length = 6) := by
  refine ⟨?_, ?_, ?_⟩
  · simp [get_disease_recommendations, hp, List.length_pos.mpr hne]
  · rw [List.length_take]
    exact min_le_left _ _
  · intro h8
    rw [List.length_take, h8]
    rfl

/-- C9 witness: a concrete JSON array of 8 strings is truncated to its
first 6 entries. -/
theorem C9_witness :
    get_disease_recommendations
      (.returns "[\"advice one aaaa\", \"advice two bbbb\", \"advice three cccc\", \"advice four dddd\", \"advice five eeee\", \"advice six ffff\", \"advice seven gggg\", \"advice eight hhhh\"]")
      "Apple" "Black_rot" "en" =
      .arr (([.str "advice one aaaa", .str "advice two bbbb", .str "advice three cccc",
              .str "advice four dddd", .str "advice five eeee", .str "advice six ffff",
              .str "advice seven gggg", .str "advice eight hhhh"] : List Json).take 6) ∧
    (([.str "advice one aaaa", .str "advice two bbbb", .str "advice three cccc",
       .str "advice four dddd", .str "advice five eeee", .str "advice six ffff",
       .str "advice seven gggg", .str "advice eight hhhh"] : List Json).take 6).length ≤ 6 ∧
    (([.str "advice one aaaa", .str "advice two bbbb", .str "advice three cccc",
       .str "advice four dddd", .str "advice five eeee", .str "advice six ffff",
       .str "advice seven gggg", .str "advice eight hhhh"] : List Json).length = 8 →
      (([.str "advice one aaaa", .str "advice two bbbb", .str "advice three cccc",
         .str "advice four dddd", .str "advice five eeee", .str "advice six ffff",
         .str "advice seven gggg", .str "advice eight hhhh"] : List Json).take 6).length = 6) :=
  C9_truncates_to_six "Apple" "Black_rot" "en" _ _ rfl (List.cons_ne_nil _ _)

/-- C1 counterexample: whitespace-only service text makes the chat case
return the empty string, and service text `"42"` (a truthy non-list JSON
value) makes the disease case return a JSON number rather than a
non-empty list of strings. -/
theorem C1_counterexample :
    get_chat_response (.returns "   ") "Is my wheat crop healthy?" "en" = "" ∧
    get_disease_recommendations (.returns "42") "Apple" "Black_rot" "en" = .num 42 :=
  ⟨rfl, rfl⟩

/-- C1 amended: the pipeline never propagates an exception (both entry
points are total over every service behaviour). The disease case returns
a non-empty list of at most 6 entries in every case EXCEPT when the
service text decodes to a truthy non-list JSON value, which is passed
through as-is. The chat case returns the non-empty fallback text when the
credential is absent or the call raises, but passes the service text
through stripped, so a whitespace-only service response yields the empty
string. -/
theorem C1_amended (llm : LLMBehavior) (crop disease question lang : String) :
    ((∃ l, get_disease_recommendations llm crop disease lang = .arr l ∧
        l ≠ [] ∧ l.length ≤ 6) ∨
     (∃ t j, llm = .returns t ∧ jsonLoads (pyStrip t) = .ok j ∧
        (∀ a, j ≠ .arr a) ∧ jsonTruthy j = true ∧
        get_disease_recommendations llm crop disease lang = j)) ∧
    (∀ t, llm = .returns t → get_chat_response llm question lang = pyStrip t) ∧
    (llm = .noKey ∨ llm = .raiseExc →
      get_chat_response llm question lang = get_fallback_chat_response question lang ∧
      get_fallback_chat_response question lang ≠ "") := by
  have hfblen : ((get_fallback_recommendations crop disease lang).map Json.str).length = 6 := by
    rw [List.length_map, fallback_recs_length]
  have hfbne : (get_fallback_recommendations crop disease lang).map Json.str ≠ [] := by
    intro h
    rw [h] at hfblen
    cases hfblen
  cases llm with
  | noKey =>
    refine ⟨Or.inl ⟨_, rfl, hfbne, le_of_eq hfblen⟩, ?_, ?_⟩
    · intro t h
      simp at h
    · intro _
      exact ⟨rfl, fallback_chat_ne_empty _ _⟩
  | raiseExc =>
    refine ⟨Or.inl ⟨_, rfl, hfbne, le_of_eq hfblen⟩, ?_, ?_⟩
    · intro t h
      simp at h
    · intro _
      exact ⟨rfl, fallback_chat_ne_empty _ _⟩
  | returns t =>
    refine ⟨?_, ?_, ?_⟩
    · cases hj : jsonLoads (pyStrip t) with
      | error e =>
        by_cases hr : heuristicRecs (pyStrip t) = []
        · refine Or.inl ⟨_, ?_, hfbne, le_of_eq hfblen⟩
          simp [get_disease_recommendations, hj, hr]
        · refine Or.inl ⟨(heuristicRecs (pyStrip t)).map Json.str, ?_, ?_, ?_⟩
          · simp [get_disease_recommendations, hj,
              List.isEmpty_eq_false_iff_exists_mem.mpr
                (List.exists_mem_of_ne_nil _ hr)]
          · intro h
            exact hr (List.map_eq_nil_iff.mp h)
          · rw [List.length_map]
            exact heuristicRecs_length_le _
      | ok j =>
        cases j with
        | arr l =>
          by_cases hl : l = []
          · subst hl
            refine Or.inl ⟨_, ?_, hfbne, le_of_eq hfblen⟩
            simp [get_disease_recommendations, hj]
          · refine Or.inl ⟨l.take 6, ?_, ?_, ?_⟩
            · simp [get_disease_recommendations, hj, List.length_pos.mpr hl]
            · intro h
              have := congrArg List.length h
              rw [List.length_take] at this
              have hpos : 0 < min 6 l.length :=
                lt_min (by decide) (List.length_pos.mpr hl)
              rw [this] at hpos
              exact absurd hpos (by decide)
            · rw [List.length_take]
              exact min_le_left _ _
        | null =>
          refine Or.inl ⟨_, ?_, hfbne, le_of_eq hfblen⟩
          simp [get_disease_recommendations, hj, jsonTruthy]
        | bool b =>
          by_cases hb : b = true
          · subst hb
            refine Or.inr ⟨t, .bool true, rfl, hj, fun a h => Json.noConfusion h, rfl, ?_⟩
            simp [get_disease_recommendations, hj, jsonTruthy]
          · have hb2 : b = false := Bool.eq_false_iff.mpr hb
            subst hb2
            refine Or.inl ⟨_, ?_, hfbne, le_of_eq hfblen⟩
            simp [get_disease_recommendations, hj, jsonTruthy]
        | num q =>
          by_cases hq : q = 0
          · subst hq
            refine Or.inl ⟨_, ?_, hfbne, le_of_eq hfblen⟩
            simp [get_disease_recommendations, hj, jsonTruthy]
          · refine Or.inr ⟨t, .num q, rfl, hj, fun a h => Json.noConfusion h, ?_, ?_⟩
            · simp [jsonTruthy, hq]
            · simp [get_disease_recommendations, hj, jsonTruthy, hq]
        | str s2 =>
          by_cases hs : s2 = ""
          · subst hs
            refine Or.inl ⟨_, ?_, hfbne, le_of_eq hfblen⟩
            simp [get_disease_recommendations, hj, jsonTruthy]
          · refine Or.inr ⟨t, .str s2, rfl, hj, fun a h => Json.noConfusion h, ?_, ?_⟩
            · simp [jsonTruthy, hs]
            · simp [get_disease_recommendations, hj, jsonTruthy, hs]
        | obj o =>
          by_cases ho : o = []
          · subst ho
            refine Or.inl ⟨_, ?_, hfbne, le_of_eq hfblen⟩
            simp [get_disease_recommendations, hj, jsonTruthy]
          · refine Or.inr ⟨t, .obj o, rfl, hj, fun a h => Json.noConfusion h, ?_, ?_⟩
            · simp [jsonTruthy, List.isEmpty_eq_false_iff_exists_mem.mpr
                (List.exists_mem_of_ne_nil _ ho)]
            · simp [get_disease_recommendations, hj, jsonTruthy,
                List.isEmpty_eq_false_iff_exists_mem.mpr (List.exists_mem_of_ne_nil _ ho)]
    · intro t2 h
      injection h with h
      rw [h]
      rfl
    · intro h
      rcases h with h | h <;> simp at h

/-- C1 witness: the amended statement exercised at a concrete returned
text (passed through stripped) and at the credential-absent behaviour
(non-empty fallback). -/
theorem C1_witness :
    get_chat_response (.returns " some advice ") "q" "en" = pyStrip " some advice " ∧
    (get_chat_response .noKey "q" "en" = get_fallback_chat_response "q" "en" ∧
      get_fallback_chat_response "q" "en" ≠ "") :=
  ⟨(C1_amended (.returns " some advice ") "Apple" "Black_rot" "q" "en").2.1
      " some advice " rfl,
   (C1_amended .noKey "Apple" "Black_rot" "q" "en").2.2 (Or.inl rfl)⟩

/-- C3 counterexample: a record whose `modal_price` is present but
non-numeric (`"abc"`) and whose `max_price` parses to the positive number
50 resolves to 0 (the record is then discarded), not to the max price:
the fallback to `max_price` happens only when `modal_price` is falsy,
because `float(modal_price)` raises inside the same `try`. -/
theorem C3_counterexample :
    pyFloat "50" = some 50 ∧ (0 : ℚ) < 50 ∧
    resolvedPrice { modal_price := some "abc", max_price := some "50" } = 0 :=
  ⟨rfl, by decide, rfl⟩

/-- C3 amended: the resolved price parses `modal_price` when that field is
present and non-empty, with NO fallback: if that parse fails the price is
zero. `max_price` is parsed only when `modal_price` is absent or empty,
and a failed parse there also gives zero. -/
theorem C3_amended (r : RawRecord) (q : ℚ) :
    (fieldTruthy r.modal_price = true → pyFloatOfField r.modal_price = some q →
      resolvedPrice r = q) ∧
    (fieldTruthy r.modal_price = true → pyFloatOfField r.modal_price = none →
      resolvedPrice r = 0) ∧
    (fieldTruthy r.modal_price = false → pyFloatOfField r.max_price = some q →
      resolvedPrice r = q) ∧
    (fieldTruthy r.modal_price = false → pyFloatOfField r.max_price = none →
      resolvedPrice r = 0) := by
  refine ⟨?_, ?_, ?_, ?_⟩ <;> intro h1 h2 <;> simp [resolvedPrice, h1, h2]

/-- C3 witness: the four resolution cases at concrete records. -/
theorem C3_witness :
    resolvedPrice { modal_price := some "120", max_price := some "50" } = 120 ∧
    resolvedPrice { modal_price := some "abc", max_price := some "50" } = 0 ∧
    resolvedPrice { max_price := some "50" } = 50 ∧
    resolvedPrice { max_price := some "xyz" } = 0 :=
  ⟨(C3_amended { modal_price := some "120", max_price := some "50" } 120).1 rfl rfl,
   (C3_amended { modal_price := some "abc", max_price := some "50" } 0).2.1 rfl rfl,
   (C3_amended { max_price := some "50" } 50).2.2.1 rfl rfl,
   (C3_amended { max_price := some "xyz" } 0).2.2.2 rfl rfl⟩

/-- The record (modal 100, min 95, max 100), whose variance is exactly 5. -/
def c6Record : RawRecord :=
  { modal_price := some "100", min_price := some "95", max_price := some "100" }

/-- C6: a record whose computed variance is exactly 5 is classified
stable with changePercent 0, and the boundaries are strictly exclusive:
trend "up" iff variance > 5, "down" iff variance < −5, "stable" iff
−5 ≤ variance ≤ 5. -/
theorem C6_variance_boundary (r : RawRecord) (v : ℚ) (h : varianceOf r = some v) :
    (v = 5 → trendChange r = ("stable", 0) ∧
      ∀ name price, (mkCropView name price r).trend = "stable" ∧
        (mkCropView name price r).change = 0) ∧
    ((trendChange r).1 = "up" ↔ 5 < v) ∧
    ((trendChange r).1 = "down" ↔ v < -5) ∧
    ((trendChange r).1 = "stable" ↔ -5 ≤ v ∧ v ≤ 5) := by
  have htc : trendChange r =
      if v > 5 then ("up", pyAbs v) else if v < -5 then ("down", pyAbs v)
      else ("stable", 0) := by
    rw [trendChange, h]
  refine ⟨?_, ?_, ?_, ?_⟩
  · intro hv5
    subst hv5
    have h5 : ¬((5 : ℚ) > 5) := lt_irrefl 5
    have h52 : ¬((5 : ℚ) < -5) := by norm_num
    rw [htc, if_neg h5, if_neg h52]
    refine ⟨rfl, fun name price => ⟨?_, ?_⟩⟩
    · show (trendChange r).1 = "stable"
      rw [htc, if_neg h5, if_neg h52]
    · show pyRound 1 (trendChange r).2 = 0
      rw [htc, if_neg h5, if_neg h52]
      decide
  · rw [htc]
    split_ifs with h5 h52
    · exact ⟨fun _ => h5, fun _ => rfl⟩
    · exact ⟨fun hh => absurd (show "down" = "up" from hh) (by decide),
        fun hh => absurd hh h5⟩
    · exact ⟨fun hh => absurd (show "stable" = "up" from hh) (by decide),
        fun hh => absurd hh h5⟩
  · rw [htc]
    split_ifs with h5 h52
    · exact ⟨fun hh => absurd (show "up" = "down" from hh) (by decide),
        fun hh => absurd hh (by linarith)⟩
    · exact ⟨fun _ => h52, fun _ => rfl⟩
    · exact ⟨fun hh => absurd (show "stable" = "down" from hh) (by decide),
        fun hh => absurd hh h52⟩
  · rw [htc]
    split_ifs with h5 h52
    · exact ⟨fun hh => absurd (show "up" = "stable" from hh) (by decide),
        fun hh => absurd h5 (not_lt.mpr hh.2)⟩
    · exact ⟨fun hh => absurd (show "down" = "stable" from hh) (by decide),
        fun hh => absurd h52 (not_lt.mpr hh.1)⟩
    · exact ⟨fun _ => ⟨not_lt.mp h52, not_lt.mp h5⟩, fun _ => rfl⟩

/-- C6 witness: the record (modal 100, min 95, max 100) has variance
exactly 5 and is classified stable with changePercent 0. -/
theorem C6_witness :
    trendChange c6Record = ("stable", 0) ∧
    (mkCropView "Rice" 100 c6Record).trend = "stable" ∧
    (mkCropView "Rice" 100 c6Record).change = 0 := by
  have h := (C6_variance_boundary c6Record 5 rfl).1 rfl
  exact ⟨h.1, (h.2 "Rice" 100).1, (h.2 "Rice" 100).2⟩

/-- The view that `listPrices` retains for commodity name `n`: the view
built from the FIRST record bearing that name, provided its resolved
price is non-zero; nothing otherwise. -/
def firstRetained (l : List RawRecord) (n : String) : List CropView :=
  match l.find? (fun r => recName r == n) with
  | none => []
  | some r =>
    if resolvedPrice r = 0 then []
    else [mkCropView (recName r) (resolvedPrice r) r]

theorem firstRetained_cons_pos {r : RawRecord} {n : String} (rest : List RawRecord)
    (hr : recName r = n) :
    firstRetained (r :: rest) n =
      if resolvedPrice r = 0 then []
      else [mkCropView (recName r) (resolvedPrice r) r] := by
  rw [firstRetained, List.find?_cons_of_pos _ (by simp [hr])]

theorem firstRetained_cons_neg {r : RawRecord} {n : String} (rest : List RawRecord)
    (hr : recName r ≠ n) :
    firstRetained (r :: rest) n = firstRetained rest n := by
  rw [firstRetained, List.find?_cons_of_neg _ (by simp [hr]), firstRetained]

theorem processRecords_filter (l : List RawRecord) (seen : List String) (n : String) :
    (processRecords l seen).filter (fun v => v.name == n) =
      if n ∈ seen then [] else firstRetained l n := by
  induction l generalizing seen with
  | nil =>
    simp [processRecords, firstRetained]
  | cons r rest ih =>
    rw [processRecords]
    by_cases hseen : recName r ∈ seen
    · rw [if_pos hseen, ih]
      by_cases hn : n ∈ seen
      · rw [if_pos hn, if_pos hn]
      · have hr : recName r ≠ n := fun he => hn (he ▸ hseen)
        rw [if_neg hn, if_neg hn, firstRetained_cons_neg rest hr]
    · rw [if_neg hseen]
      by_cases hzero : resolvedPrice r = 0
      · rw [if_pos hzero, ih]
        by_cases hname : recName r = n
        · have hn : n ∉ seen := hname ▸ hseen
          rw [if_pos (by rw [← hname]; exact List.mem_cons_self _ _), if_neg hn,
            firstRetained_cons_pos rest hname, if_pos hzero]
        · by_cases hn : n ∈ seen
          · rw [if_pos (List.mem_cons_of_mem _ hn), if_pos hn]
          · rw [if_neg (by
                simp only [List.mem_cons]
                rintro (h | h)
                exacts [hname h.symm, hn h]), if_neg hn,
              firstRetained_cons_neg rest hname]
      · rw [if_neg hzero]
        by_cases hname : recName r = n
        · have hn : n ∉ seen := hname ▸ hseen
          rw [List.filter_cons_of_pos (by simp [mkCropView, hname]), ih,
            if_pos (by rw [← hname]; exact List.mem_cons_self _ _), if_neg hn,
            firstRetained_cons_pos rest hname, if_neg hzero]
        · rw [List.filter_cons_of_neg (by simp [mkCropView, hname]), ih]
          by_cases hn : n ∈ seen
          · rw [if_pos (List.mem_cons_of_mem _ hn), if_pos hn]
          · rw [if_neg (by
                simp only [List.mem_cons]
                rintro (h | h)
                exacts [hname h.symm, hn h]), if_neg hn,
              firstRetained_cons_neg rest hname]

/-- A zero-price record: commodity present, every price field absent. -/
def c2First : RawRecord := { commodity := some "Rice" }

/-- A later record with the same commodity name and positive price. -/
def c2Second : RawRecord :=
  { commodity := some "Rice", modal_price := some "100",
    min_price := some "95", max_price := some "105" }

def c2Fetch : MarketQuery → UpstreamResult := fun _ => .records [c2First, c2Second]

/-- C2 counterexample: the first "Rice" record resolves to price 0 and is
dropped from the output, but its name still enters `seen_commodities`
(the source adds to the set BEFORE the zero-price test), so the later
"Rice" record with positive resolved price 100 is also skipped: the
output is empty, refuting "a later record with the same commodity name
and a positive resolved price is still retained". -/
theorem C2_counterexample :
    resolvedPrice c2First = 0 ∧
    resolvedPrice c2Second = 100 ∧
    recName c2First = recName c2Second ∧
    get_market_prices c2Fetch none none 100 =
      .ok { success := true, message := none, count := some 0, crops := [] } :=
  ⟨rfl, rfl, rfl, rfl⟩

/-- C2 amended: a record with resolved price zero never appears in the
output, but it DOES count toward deduplication: for every commodity name
`n`, the output of the record loop contains exactly the view built from
the FIRST raw record named `n` when the resolved price of that record is
non-zero, and no view named `n` at all otherwise — in particular a
zero-price first record suppresses every later record of the same name,
and the first retained record is never overwritten by a later duplicate. -/
theorem C2_amended (l : List RawRecord) (n : String) :
    (processRecords l []).filter (fun v => v.name == n) = firstRetained l n := by
  rw [processRecords_filter]
  rfl

/-! ## Properties of the stable descending sort -/

theorem mem_insertDescBy {α : Type} (key : α → ℚ) (a y : α) (l : List α) :
    y ∈ insertDescBy key a l ↔ y = a ∨ y ∈ l := by
  induction l with
  | nil => simp [insertDescBy]
  | cons b t ih =>
    rw [insertDescBy]
    by_cases h : key a ≤ key b
    · rw [if_pos h]
      simp only [List.mem_cons, ih]
      tauto
    · rw [if_neg h]
      simp only [List.mem_cons]

theorem pairwise_insertDescBy {α : Type} (key : α → ℚ) (a : α) {l : List α}
    (h : l.Pairwise (fun x y => key y ≤ key x)) :
    (insertDescBy key a l).Pairwise (fun x y => key y ≤ key x) := by
  induction l with
  | nil => simp [insertDescBy]
  | cons b t ih =>
    rcases List.pairwise_cons.mp h with ⟨hb, ht⟩
    rw [insertDescBy]
    by_cases hab : key a ≤ key b
    · rw [if_pos hab]
      refine List.pairwise_cons.mpr ⟨?_, ih ht⟩
      intro y hy
      rcases (mem_insertDescBy key a y t).mp hy with rfl | hyt
      · exact hab
      · exact hb y hyt
    · rw [if_neg hab]
      refine List.pairwise_cons.mpr ⟨?_, h⟩
      intro y hy
      rcases List.mem_cons.mp hy with rfl | hyt
      · exact le_of_lt (not_le.mp hab)
      · exact le_trans (hb y hyt) (le_of_lt (not_le.mp hab))

theorem foldl_insertDescBy_pairwise {α : Type} (key : α → ℚ) (l : List α) :
    ∀ acc : List α, acc.Pairwise (fun x y => key y ≤ key x) →
      (l.foldl (fun acc a => insertDescBy key a acc) acc).Pairwise
        (fun x y => key y ≤ key x) := by
  induction l with
  | nil => intro acc hacc; exact hacc
  | cons a t ih =>
    intro acc hacc
    rw [List.foldl_cons]
    exact ih _ (pairwise_insertDescBy key a hacc)

theorem filter_insertDescBy {α : Type} (key : α → ℚ) (k : ℚ) (a : α) {l : List α}
    (h : l.Pairwise (fun x y => key y ≤ key x)) :
    (insertDescBy key a l).filter (fun x => key x == k) =
      if key a = k then l.filter (fun x => key x == k) ++ [a]
      else l.filter (fun x => key x == k) := by
  induction l with
  | nil =>
    by_cases hk : key a = k <;> simp [insertDescBy, List.filter_cons, hk]
  | cons b t ih =>
    rcases List.pairwise_cons.mp h with ⟨hb, ht⟩
    rw [insertDescBy]
    by_cases hab : key a ≤ key b
    · rw [if_pos hab, List.filter_cons, List.filter_cons, ih ht]
      by_cases hak : key a = k
      · rw [if_pos hak, if_pos hak]
        by_cases hbk : (key b == k) = true <;> simp [hbk]
      · rw [if_neg hak, if_neg hak]
    · rw [if_neg hab]
      have hba : key b < key a := not_le.mp hab
      rw [List.filter_cons]
      by_cases hak : key a = k
      · rw [if_pos (by simp [hak]), if_pos hak]
        have hnil : (b :: t).filter (fun x => key x == k) = [] := by
          rw [List.filter_eq_nil_iff]
          intro y hy
          simp only [beq_iff_eq]
          rcases List.mem_cons.mp hy with rfl | hyt
          · exact ne_of_lt (hak ▸ hba)
          · exact ne_of_lt (hak ▸ lt_of_le_of_lt (hb y hyt) hba)
        simp [hnil]
      · rw [if_neg (by simp [hak]), if_neg hak]

theorem foldl_insertDescBy_filter {α : Type} (key : α → ℚ) (k : ℚ) (l : List α) :
    ∀ acc : List α, acc.Pairwise (fun x y => key y ≤ key x) →
      (l.foldl (fun acc a => insertDescBy key a acc) acc).filter (fun x => key x == k) =
        acc.filter (fun x => key x == k) ++ l.filter (fun x => key x == k) := by
  induction l with
  | nil => intro acc hacc; simp
  | cons a t ih =>
    intro acc hacc
    rw [List.foldl_cons, ih _ (pairwise_insertDescBy key a hacc),
      filter_insertDescBy key k a hacc, List.filter_cons]
    by_cases hak : key a = k
    · rw [if_pos hak, if_pos (by simp [hak])]
      simp
    · rw [if_neg hak, if_neg (by simp [hak])]

theorem insertDescBy_perm {α : Type} (key : α → ℚ) (a : α) (l : List α) :
    (insertDescBy key a l).Perm (a :: l) := by
  induction l with
  | nil => exact List.Perm.refl _
  | cons b t ih =>
    rw [insertDescBy]
    by_cases hab : key a ≤ key b
    · rw [if_pos hab]
      exact (ih.cons b).trans (List.Perm.swap a b t)
    · rw [if_neg hab]

theorem foldl_insertDescBy_perm {α : Type} (key : α → ℚ) (l : List α) :
    ∀ acc : List α,
      (l.foldl (fun acc a => insertDescBy key a acc) acc).Perm (acc ++ l) := by
  induction l with
  | nil => intro acc; simp
  | cons a t ih =>
    intro acc
    rw [List.foldl_cons]
    have h1 := ih (insertDescBy key a acc)
    have h2 : (insertDescBy key a acc ++ t).Perm ((a :: acc) ++ t) :=
      (insertDescBy_perm key a acc).append_right t
    have h3 : ((a :: acc) ++ t).Perm (acc ++ a :: t) := by
      simpa using List.perm_middle.symm
    exact h1.trans (h2.trans h3)

/-- A minimal price view with a given name and changePercent, used for the
concrete trending example. -/
def exView (nm : String) (q : ℚ) : CropView :=
  { name := nm, price := 0, unit := "quintal", trend := "stable", change := q,
    market := "", state := "", district := "", date := "" }

/-- C7: `trendingPrices` calls `listPrices` with an internal sample bound
of at least 200 (exactly 200 in the source), then returns the top `limit`
entries of the listing sorted by `|changePercent|` descending; the sort is
descending (pairwise), stable (the subsequence of any fixed key value is
preserved), and a permutation; over five views with changes
[1, 9, 3, 7, 2] and limit 3 it returns the views with changes [9, 7, 3]
in that order. -/
theorem C7_trending :
    200 ≤ trendingSampleBound ∧
    (∀ (fetch : MarketQuery → UpstreamResult) (state : Option String)
        (limit : Nat) (result : MarketResponse),
      get_market_prices fetch state none trendingSampleBound = .ok result →
      result.success = true →
      get_trending_crops fetch state limit =
        .ok { success := true, message := none,
              count := some ((sortDescBy absChange result.crops).take limit).length,
              crops := (sortDescBy absChange result.crops).take limit }) ∧
    (∀ l : List CropView,
      (sortDescBy absChange l).Pairwise (fun x y => absChange y ≤ absChange x)) ∧
    (∀ (l : List CropView) (k : ℚ),
      (sortDescBy absChange l).filter (fun x => absChange x == k) =
        l.filter (fun x => absChange x == k)) ∧
    (∀ l : List CropView, (sortDescBy absChange l).Perm l) ∧
    (sortDescBy absChange [exView "a" 1, exView "b" 9, exView "c" 3,
        exView "d" 7, exView "e" 2]).take 3 =
      [exView "b" 9, exView "d" 7, exView "c" 3] := by
  refine ⟨le_refl _, ?_, ?_, ?_, ?_, rfl⟩
  · intro fetch state limit result h hs
    simp [get_trending_crops, h, hs]
  · intro l
    exact foldl_insertDescBy_pairwise absChange l [] List.Pairwise.nil
  · intro l k
    have := foldl_insertDescBy_filter absChange k l [] List.Pairwise.nil
    simpa [sortDescBy] using this
  · intro l
    have := foldl_insertDescBy_perm absChange l []
    simpa [sortDescBy] using this

/-- C7 witness: the trending route at a concrete upstream feed. -/
theorem C7_witness :
    get_trending_crops (fun _ => .records []) none 3 =
      .ok { success := true, message := none, count := some 0, crops := [] } :=
  (C7_trending).2.1 (fun _ => .records []) none 3
    { success := true, message := none, count := some 0, crops := [] } rfl rfl

end CropApi
